import Mathlib

/-!
# Verification of the vehicle-emission-heatmap numeric core

A shallow embedding of the numeric pipeline of `src/app.py`
(vehicle-emission-heatmap): efficiency computation, row preprocessing,
grid binning/aggregation (pandas `cut` + `groupby` + `mean` + `fillna`),
summary statistics, and a spec-modelled scattered-surface interpolator.
Floating-point values are idealised as rationals (`ℚ`); pandas `NaN`
results are modelled as `Option.none`.
-/

set_option maxRecDepth 4000

namespace EmissionHeatmap

/-! ## EfficiencyCalculator (`calculate_efficiency`, app.py lines 59-63) -/

/-- `np.clip x lo hi` on scalars: `max lo (min x hi)`. -/
def clip (x lo hi : ℚ) : ℚ := max lo (min x hi)

/-- The per-index body of `calculate_efficiency`: the mask is
`(upstream > 0) & (downstream >= 0)`; where the mask holds the value is
`(1 - downstream/upstream) * 100`, elsewhere `0`; the whole result is then
clipped to `[0, 100]`. -/
def effAt (u d : ℚ) : ℚ :=
  clip (if 0 < u ∧ 0 ≤ d then (1 - d / u) * 100 else 0) 0 100

/-- `calculate_efficiency(upstream, downstream)` as an elementwise map over
the two aligned series. -/
def calculate_efficiency (us ds : List ℚ) : List ℚ :=
  List.zipWith effAt us ds

/-- The clamp written in the spec: `clamp(v, 0, 100)`; identical to `clip`. -/
def clamp (v lo hi : ℚ) : ℚ := max lo (min v hi)

/-! ### Helper lemmas -/

theorem clip_nonneg (x : ℚ) : 0 ≤ clip x 0 100 := le_max_left 0 _

theorem clip_le_100 (x : ℚ) : clip x 0 100 ≤ 100 := by
  apply max_le
  · norm_num
  · exact min_le_right x 100

theorem effAt_nonneg (u d : ℚ) : 0 ≤ effAt u d := clip_nonneg _

theorem effAt_le_100 (u d : ℚ) : effAt u d ≤ 100 := clip_le_100 _

theorem zipWith_get? {α β γ : Type} (f : α → β → γ) :
    ∀ (as : List α) (bs : List β) (i : ℕ),
      (List.zipWith f as bs).get? i =
        match as.get? i, bs.get? i with
        | some a, some b => some (f a b)
        | _, _ => none := by
  intro as
  induction as with
  | nil => intro bs i; cases bs <;> cases i <;> rfl
  | cons a as ih =>
    intro bs i
    cases bs with
    | nil => cases i <;> simp [List.zipWith]
    | cons b bs => cases i with
      | zero => rfl
      | succ j => simpa using ih bs j

theorem mem_zipWith_eff {us ds : List ℚ} {x : ℚ}
    (hx : x ∈ calculate_efficiency us ds) : ∃ u d, x = effAt u d := by
  unfold calculate_efficiency at hx
  induction us generalizing ds with
  | nil => simp [List.zipWith] at hx
  | cons u us ih =>
    cases ds with
    | nil => simp [List.zipWith] at hx
    | cons d ds =>
      simp only [List.zipWith, List.mem_cons] at hx
      rcases hx with h | h
      · exact ⟨u, d, h⟩
      · exact ih h

/-! ### Claim theorems for the efficiency calculator -/

/-- C1. For every pair of equal-length input sequences `upstream` and
`downstream`, `calculate_efficiency` returns a sequence of the same length
whose every element lies in the closed range `[0, 100]`. -/
theorem efficiency_length_and_bounds (us ds : List ℚ)
    (h : us.length = ds.length) :
    (calculate_efficiency us ds).length = us.length ∧
      ∀ x ∈ calculate_efficiency us ds, 0 ≤ x ∧ x ≤ 100 := by
  constructor
  · unfold calculate_efficiency
    rw [List.length_zipWith, h, min_self]
  · intro x hx
    obtain ⟨u, d, rfl⟩ := mem_zipWith_eff hx
    exact ⟨effAt_nonneg u d, effAt_le_100 u d⟩

/-- C1 witness: concrete instance `upstream = [100, 50, 0]`,
`downstream = [20, 60, 10]`. -/
theorem efficiency_length_and_bounds_witness :
    ([ (100 : ℚ), 50, 0 ].length = [ (20 : ℚ), 60, 10 ].length) ∧
      ((calculate_efficiency [100, 50, 0] [20, 60, 10]).length =
          [ (100 : ℚ), 50, 0 ].length ∧
        ∀ x ∈ calculate_efficiency [100, 50, 0] [20, 60, 10],
          0 ≤ x ∧ x ≤ 100) :=
  ⟨rfl, efficiency_length_and_bounds [100, 50, 0] [20, 60, 10] rfl⟩

/-- C2 counterexample: at `upstream = [1]`, `downstream = [-1]` (so
`upstream[0] > 0`), the code returns `0` while
`clamp((u - d)/u * 100, 0, 100) = 100`; the claim fails for negative
downstream values. -/
theorem efficiency_formula_counterexample :
    (calculate_efficiency [1] [-1]).get? 0 = some 0 ∧
      clamp ((1 - (-1 : ℚ)) / 1 * 100) 0 100 = 100 ∧
      (0 : ℚ) ≠ 100 := by
  refine ⟨?_, by norm_num [clamp], by norm_num⟩
  simp [calculate_efficiency, effAt, clip]
  norm_num

/-- C2 (amended). For every index `i` with `upstream[i] > 0` **and**
`downstream[i] ≥ 0`, `calculate_efficiency` at `i` equals
`clamp((upstream[i] - downstream[i]) / upstream[i] * 100, 0, 100)`. -/
theorem efficiency_formula_on_mask (us ds : List ℚ) (i : ℕ) (u d : ℚ)
    (hu : us.get? i = some u) (hd : ds.get? i = some d)
    (hupos : 0 < u) (hdnn : 0 ≤ d) :
    (calculate_efficiency us ds).get? i =
      some (clamp ((u - d) / u * 100) 0 100) := by
  unfold calculate_efficiency
  rw [zipWith_get? effAt us ds i, hu, hd]
  have hne : u ≠ 0 := ne_of_gt hupos
  have hform : (1 - d / u) * 100 = (u - d) / u * 100 := by
    field_simp
  simp only [effAt, clip, clamp]
  rw [if_pos (⟨hupos, hdnn⟩ : 0 < u ∧ 0 ≤ d), hform]

/-- C2 witness: `upstream = [100]`, `downstream = [20]` gives
`clamp(80, 0, 100)` at index 0. -/
theorem efficiency_formula_on_mask_witness :
    (calculate_efficiency [100] [20]).get? 0 =
      some (clamp ((100 - (20 : ℚ)) / 100 * 100) 0 100) :=
  efficiency_formula_on_mask [100] [20] 0 100 20 rfl rfl (by norm_num)
    (by norm_num)

/-- C3. Wherever `upstream[i] = 0`, the code returns exactly `0` at `i`:
the mask `upstream > 0` fails, so the guarded formula (and its division)
is never evaluated there and the zero-initialised entry is kept. -/
theorem efficiency_zero_upstream (us ds : List ℚ) (i : ℕ) (d : ℚ)
    (hu : us.get? i = some 0) (hd : ds.get? i = some d) :
    (calculate_efficiency us ds).get? i = some 0 := by
  unfold calculate_efficiency
  rw [zipWith_get? effAt us ds i, hu, hd]
  simp [effAt, clip]

/-- C3 witness: `upstream = [0]`, `downstream = [10]` yields `0`. -/
theorem efficiency_zero_upstream_witness :
    (calculate_efficiency [0] [10]).get? 0 = some 0 :=
  efficiency_zero_upstream [0] [10] 0 10 rfl rfl

/-- C10. Where `upstream[i] > 0` but `downstream[i] < 0`, the mask
`(upstream > 0) & (downstream >= 0)` fails, so the code returns exactly
`0` at `i` rather than the clamped formula value `100`. -/
theorem efficiency_negative_downstream (us ds : List ℚ) (i : ℕ) (u d : ℚ)
    (hu : us.get? i = some u) (hd : ds.get? i = some d)
    (hupos : 0 < u) (hdneg : d < 0) :
    (calculate_efficiency us ds).get? i = some 0 := by
  unfold calculate_efficiency
  rw [zipWith_get? effAt us ds i, hu, hd]
  have : ¬ (0 < u ∧ 0 ≤ d) := by
    rintro ⟨-, hdnn⟩
    exact absurd hdneg (not_lt.mpr hdnn)
  simp [effAt, clip, this]

/-- C10 witness: `upstream = [1]`, `downstream = [-1]` yields `0`. -/
theorem efficiency_negative_downstream_witness :
    (calculate_efficiency [1] [-1]).get? 0 = some 0 :=
  efficiency_negative_downstream [1] [-1] 0 1 (-1) rfl rfl (by norm_num)
    (by norm_num)

/-! ## SamplePreprocessor (`load_and_process_data`, app.py lines 47-54)

A raw row has the ten renamed columns (time, Lambda, catalyst temperature,
CO/THC/NOx upstream and downstream concentrations, flow); cells may be
missing (`Option.none` models pandas `NaN`). -/

structure RawRow where
  time : Option ℚ
  lam : Option ℚ
  catTemp : Option ℚ
  coUp : Option ℚ
  coDown : Option ℚ
  thcUp : Option ℚ
  thcDown : Option ℚ
  noxUp : Option ℚ
  noxDown : Option ℚ
  flow : Option ℚ
deriving DecidableEq

/-- A row after `fillna`: every field is a number. -/
structure Row where
  time : ℚ
  lam : ℚ
  catTemp : ℚ
  coUp : ℚ
  coDown : ℚ
  thcUp : ℚ
  thcDown : ℚ
  noxUp : ℚ
  noxDown : ℚ
  flow : ℚ
deriving DecidableEq

/-- `df.fillna(0)`: every missing numeric field becomes `0`. -/
def fillRow (r : RawRow) : Row :=
  ⟨r.time.getD 0, r.lam.getD 0, r.catTemp.getD 0, r.coUp.getD 0,
    r.coDown.getD 0, r.thcUp.getD 0, r.thcDown.getD 0, r.noxUp.getD 0,
    r.noxDown.getD 0, r.flow.getD 0⟩

/-- `df[col] = df[col].clip(lower=0)` applied to the six concentration
columns only. -/
def clipRow (r : Row) : Row :=
  { r with
    coUp := max 0 r.coUp, coDown := max 0 r.coDown,
    thcUp := max 0 r.thcUp, thcDown := max 0 r.thcDown,
    noxUp := max 0 r.noxUp, noxDown := max 0 r.noxDown }

/-- `df.iloc[::5, :]`: keep every 5th row starting from the first,
preserving order. -/
def every5 {α : Type} : List α → List α
  | [] => []
  | x :: xs => x :: every5 (xs.drop 4)
termination_by l => l.length
decreasing_by simp [List.length_drop]; omega

/-- The preprocessing pipeline of `load_and_process_data` in source order:
`fillna(0)`, then clip the six concentration columns, then decimate by 5. -/
def load_and_process (rows : List RawRow) : List Row :=
  every5 ((rows.map fillRow).map clipRow)

theorem every5_get? {α : Type} : ∀ (xs : List α) (i : ℕ),
    (every5 xs).get? i = xs.get? (5 * i)
  | [], i => by simp [every5]
  | x :: xs, 0 => by simp [every5]
  | x :: xs, j + 1 => by
    rw [every5, List.get?_cons_succ, every5_get? (xs.drop 4) j]
    have h5 : 5 * (j + 1) = (4 + 5 * j) + 1 := by omega
    rw [h5, List.get?_cons_succ]
    simp [List.get?_eq_getElem?, List.getElem?_drop]
termination_by xs _ => xs.length
decreasing_by simp [List.length_drop]; omega

theorem every5_length {α : Type} (xs : List α) :
    (every5 xs).length = (xs.length + 4) / 5 := by
  induction xs using every5.induct with
  | case1 => simp [every5]
  | case2 x xs ih =>
    rw [every5]
    simp only [List.length_cons, ih, List.length_drop]
    omega

/-! ### Claim theorem for the preprocessor -/

/-- C6. The preprocessing pipeline first replaces every missing numeric
field with `0` (`fillRow`), then clips the six concentration fields to a
minimum of `0` (`clipRow`), then keeps every 5th row: the `i`-th output
row is exactly `clipRow (fillRow (rows[5*i]))` (order preserving), and the
output length is `⌈rows.length / 5⌉`. -/
theorem preprocess_order_and_decimation (rows : List RawRow) (i : ℕ) :
    (load_and_process rows).get? i =
        (rows.get? (5 * i)).map (fun r => clipRow (fillRow r)) ∧
      (load_and_process rows).length = (rows.length + 4) / 5 := by
  constructor
  · unfold load_and_process
    rw [every5_get?]
    simp only [List.get?_eq_getElem?, List.getElem?_map, Option.map_map]
    cases rows[5 * i]? <;> rfl
  · unfold load_and_process
    rw [every5_length]
    simp

/-! ## SummaryStatistics (`show_statistics`, app.py lines 237-255) -/

/-- A processed row as consumed by `show_statistics`: the three derived
conversion-rate columns. -/
structure ProcRow where
  coEff : ℚ
  thcEff : ℚ
  noxEff : ℚ
deriving DecidableEq

/-- `pandas.Series.mean()`: `NaN` (modelled `none`) on an empty series,
otherwise the arithmetic mean. -/
def pdMean (xs : List ℚ) : Option ℚ :=
  match xs with
  | [] => none
  | _ => some (xs.sum / xs.length)

/-- The metrics record that `show_statistics` displays. -/
structure StatsView where
  totalPoints : ℕ
  coMean : Option ℚ
  thcMean : Option ℚ
  noxMean : Option ℚ
deriving DecidableEq

/-- `show_statistics(df)`: `len(df)` and the mean of each conversion-rate
column; no exception path exists. -/
def show_statistics (df : List ProcRow) : StatsView :=
  ⟨df.length, pdMean (df.map ProcRow.coEff), pdMean (df.map ProcRow.thcEff),
    pdMean (df.map ProcRow.noxEff)⟩

/-! ### Claim theorems for the statistics -/

/-- C7 counterexample: on the empty row set the code does **not** raise;
`show_statistics` completes and returns a statistics record (count `0`,
`NaN` means, modelled `none`), contradicting the claim that an
`EmptySeriesError` is raised and nothing is returned. -/
theorem statistics_empty_counterexample :
    show_statistics [] = ⟨0, none, none, none⟩ := rfl

/-- C7 (amended). `show_statistics` is total: it completes on every row
set — there is no `EmptySeriesError` in the code — reporting the row
count, and a mean that is `NaN` (`none`) exactly when the series is
empty. -/
theorem statistics_total_nan_on_empty (df : List ProcRow) :
    (show_statistics df).totalPoints = df.length ∧
      ((show_statistics df).coMean = none ↔ df = []) ∧
      ((show_statistics df).thcMean = none ↔ df = []) ∧
      ((show_statistics df).noxMean = none ↔ df = []) := by
  refine ⟨rfl, ?_, ?_, ?_⟩ <;>
    · simp only [show_statistics, pdMean]
      cases df <;> simp

/-! ## GridAggregator (`create_heatmap_data`, app.py lines 82-106)

The binning is pandas `pd.cut(series, bins=k)`: with an integer number of
bins, pandas computes the min/max of the data, builds `k + 1` equally
spaced edges over `[min, max]`, and (with the default `right=True`)
lowers the very first edge by 0.1% of the range so that the minimum is
included; each value `x` is assigned to the left-open right-closed
interval `(e_i, e_{i+1}]` containing it.  When the range has zero width
(`min = max`), pandas instead widens both ends by 0.1% of `|min|`
(by 0.001 when `min = 0`) and still produces `k` bins. -/

/-- The padding pandas applies to each end of a zero-width range. -/
def padOf (v : ℚ) : ℚ := if v = 0 then 1 / 1000 else |v| / 1000

/-- The `i`-th bin edge of `pd.cut(x, bins=k)` for data ranging over
`[mn, mx]` (edge indices `0 … k`). -/
def cutEdge (mn mx : ℚ) (k : ℕ) (i : ℕ) : ℚ :=
  if mn = mx then (mn - padOf mn) + i * (2 * padOf mn) / k
  else if i = 0 then mn - (mx - mn) / 1000
  else mn + i * (mx - mn) / k

/-- Scan for the first bin index `j ∈ [i, i + fuel)` with `x ≤ e (j+1)`. -/
def firstLEAux (e : ℕ → ℚ) (x : ℚ) (i : ℕ) : ℕ → Option ℕ
  | 0 => none
  | fuel + 1 =>
    if x ≤ e (i + 1) then some i else firstLEAux e x (i + 1) fuel

/-- The bin index `pd.cut` assigns to `x` (`none` models `NaN` for values
outside all bins): the unique `i < k` with
`cutEdge mn mx k i < x ≤ cutEdge mn mx k (i+1)`. -/
def binIdx (mn mx : ℚ) (k : ℕ) (x : ℚ) : Option ℕ :=
  if x ≤ cutEdge mn mx k 0 then none
  else firstLEAux (cutEdge mn mx k) x 0 k

/-- One scattered sample for one pollutant: flow, catalyst temperature,
and the derived conversion efficiency. -/
structure HSample where
  flow : ℚ
  temp : ℚ
  eff : ℚ
deriving DecidableEq

/-- Minimum of a list (pandas takes the data minimum for the cut). -/
def listMin : List ℚ → ℚ
  | [] => 0
  | x :: xs => xs.foldl min x

/-- Maximum of a list. -/
def listMax : List ℚ → ℚ
  | [] => 0
  | x :: xs => xs.foldl max x

def flowMin (ss : List HSample) : ℚ := listMin (ss.map HSample.flow)
def flowMax (ss : List HSample) : ℚ := listMax (ss.map HSample.flow)
def tempMin (ss : List HSample) : ℚ := listMin (ss.map HSample.temp)
def tempMax (ss : List HSample) : ℚ := listMax (ss.map HSample.temp)

/-- `flow_bins = pd.cut(df['flow'], bins=k)` evaluated at `x`. -/
def flowBin (ss : List HSample) (k : ℕ) (x : ℚ) : Option ℕ :=
  binIdx (flowMin ss) (flowMax ss) k x

/-- `temp_bins = pd.cut(df['catalyst_temperature'], bins=k)` at `x`. -/
def tempBin (ss : List HSample) (k : ℕ) (x : ℚ) : Option ℕ :=
  binIdx (tempMin ss) (tempMax ss) k x

/-- The samples `groupby([flow_bins, temp_bins])` places in cell `(i, j)`. -/
def cellSamples (ss : List HSample) (k i j : ℕ) : List HSample :=
  ss.filter fun s =>
    decide (flowBin ss k s.flow = some i) &&
      decide (tempBin ss k s.temp = some j)

/-- Number of samples aggregated into cell `(i, j)`. -/
def cellCount (ss : List HSample) (k i j : ℕ) : ℕ :=
  (cellSamples ss k i j).length

/-- The grouped mean before `fillna`: `NaN` (`none`) for an empty group. -/
def cellMean (ss : List HSample) (k i j : ℕ) : Option ℚ :=
  match cellSamples ss k i j with
  | [] => none
  | l => some ((l.map HSample.eff).sum / l.length)

/-- The matrix entry after `.fillna(0)`. -/
def cellAgg (ss : List HSample) (k i j : ℕ) : ℚ :=
  (cellMean ss k i j).getD 0

/-- `interval.mid` of the `i`-th flow bin: midpoint of the pandas
interval, including the lowered first edge. -/
def flowCenter (ss : List HSample) (k i : ℕ) : ℚ :=
  (cutEdge (flowMin ss) (flowMax ss) k i +
    cutEdge (flowMin ss) (flowMax ss) k (i + 1)) / 2

/-- `interval.mid` of the `j`-th temperature bin. -/
def tempCenter (ss : List HSample) (k j : ℕ) : ℚ :=
  (cutEdge (tempMin ss) (tempMax ss) k j +
    cutEdge (tempMin ss) (tempMax ss) k (j + 1)) / 2

/-- The bin midpoints as the claim words them: midpoints of an
equal-width partition of the closed range `[mn, mx]` itself. -/
def specMid (mn mx : ℚ) (k i : ℕ) : ℚ :=
  ((mn + i * (mx - mn) / k) + (mn + (i + 1) * (mx - mn) / k)) / 2

/-- The assignment rule as the claim words it: equal-width half-open
intervals `[e_i, e_{i+1})` over `[mn, mx]`, the last one closed on the
right. -/
def specAssign (mn mx : ℚ) (k : ℕ) (x : ℚ) : ℕ :=
  (((List.range (k - 1)).findIdx? fun i =>
      decide (x < mn + ((i : ℚ) + 1) * (mx - mn) / k)).getD (k - 1))

/-! ### List min/max lemmas -/

theorem foldl_min_le_init (l : List ℚ) (a : ℚ) : l.foldl min a ≤ a := by
  induction l generalizing a with
  | nil => simp
  | cons y l ih =>
    exact le_trans (ih (min a y)) (min_le_left a y)

theorem foldl_min_le_mem (l : List ℚ) (a x : ℚ) (hx : x ∈ l) :
    l.foldl min a ≤ x := by
  induction l generalizing a with
  | nil => cases hx
  | cons y l ih =>
    rcases List.mem_cons.mp hx with rfl | hx
    · exact le_trans (foldl_min_le_init l (min a x)) (min_le_right a x)
    · exact ih (min a y) hx

theorem listMin_le {l : List ℚ} {x : ℚ} (hx : x ∈ l) : listMin l ≤ x := by
  cases l with
  | nil => cases hx
  | cons y l =>
    rcases List.mem_cons.mp hx with rfl | hx
    · exact foldl_min_le_init l x
    · exact foldl_min_le_mem l y x hx

theorem le_foldl_max_init (l : List ℚ) (a : ℚ) : a ≤ l.foldl max a := by
  induction l generalizing a with
  | nil => simp
  | cons y l ih =>
    exact le_trans (le_max_left a y) (ih (max a y))

theorem mem_le_foldl_max (l : List ℚ) (a x : ℚ) (hx : x ∈ l) :
    x ≤ l.foldl max a := by
  induction l generalizing a with
  | nil => cases hx
  | cons y l ih =>
    rcases List.mem_cons.mp hx with rfl | hx
    · exact le_trans (le_max_right a x) (le_foldl_max_init l (max a x))
    · exact ih (max a y) hx

theorem le_listMax {l : List ℚ} {x : ℚ} (hx : x ∈ l) : x ≤ listMax l := by
  cases l with
  | nil => cases hx
  | cons y l =>
    rcases List.mem_cons.mp hx with rfl | hx
    · exact le_foldl_max_init l x
    · exact mem_le_foldl_max l y x hx

theorem foldl_min_const (l : List ℚ) (v : ℚ) (h : ∀ x ∈ l, x = v) :
    l.foldl min v = v := by
  induction l with
  | nil => rfl
  | cons y l ih =>
    have hy : y = v := h y (List.mem_cons_self y l)
    subst hy
    simp only [List.foldl_cons, min_self]
    exact ih fun x hx => h x (List.mem_cons_of_mem y hx)

theorem listMin_const {l : List ℚ} {v : ℚ} (hne : l ≠ [])
    (h : ∀ x ∈ l, x = v) : listMin l = v := by
  cases l with
  | nil => exact absurd rfl hne
  | cons y l =>
    have hy : y = v := h y (List.mem_cons_self y l)
    subst hy
    exact foldl_min_const l y fun x hx => h x (List.mem_cons_of_mem _ hx)

theorem foldl_max_const (l : List ℚ) (v : ℚ) (h : ∀ x ∈ l, x = v) :
    l.foldl max v = v := by
  induction l with
  | nil => rfl
  | cons y l ih =>
    have hy : y = v := h y (List.mem_cons_self y l)
    subst hy
    simp only [List.foldl_cons, max_self]
    exact ih fun x hx => h x (List.mem_cons_of_mem y hx)

theorem listMax_const {l : List ℚ} {v : ℚ} (hne : l ≠ [])
    (h : ∀ x ∈ l, x = v) : listMax l = v := by
  cases l with
  | nil => exact absurd rfl hne
  | cons y l =>
    have hy : y = v := h y (List.mem_cons_self y l)
    subst hy
    exact foldl_max_const l y fun x hx => h x (List.mem_cons_of_mem _ hx)

/-! ### Bin-edge lemmas -/

theorem padOf_pos (v : ℚ) : 0 < padOf v := by
  unfold padOf
  by_cases h : v = 0
  · rw [if_pos h]; norm_num
  · rw [if_neg h]
    have : 0 < |v| := abs_pos.mpr h
    positivity

theorem cutEdge_nondegen_pos {mn mx : ℚ} {k : ℕ} (h : mn < mx) (i : ℕ)
    (hi : i ≠ 0) : cutEdge mn mx k i = mn + i * (mx - mn) / k := by
  unfold cutEdge
  rw [if_neg (ne_of_lt h), if_neg hi]

theorem cutEdge_nondegen_zero {mn mx : ℚ} {k : ℕ} (h : mn < mx) :
    cutEdge mn mx k 0 = mn - (mx - mn) / 1000 := by
  unfold cutEdge
  rw [if_neg (ne_of_lt h), if_pos rfl]

theorem cutEdge_zero_lt_min {mn mx : ℚ} {k : ℕ} (h : mn < mx) :
    cutEdge mn mx k 0 < mn := by
  rw [cutEdge_nondegen_zero h]
  have : (0 : ℚ) < (mx - mn) / 1000 := by
    have : (0 : ℚ) < mx - mn := by linarith
    positivity
  linarith

theorem cutEdge_last {mn mx : ℚ} {k : ℕ} (h : mn < mx) (hk : 0 < k) :
    cutEdge mn mx k k = mx := by
  rw [cutEdge_nondegen_pos h k (Nat.pos_iff_ne_zero.mp hk)]
  have hkq : (k : ℚ) ≠ 0 := Nat.cast_ne_zero.mpr (Nat.pos_iff_ne_zero.mp hk)
  field_simp

theorem cutEdge_mono {mn mx : ℚ} {k : ℕ} (h : mn < mx) (hk : 0 < k)
    {a b : ℕ} (ha : 1 ≤ a) (hab : a ≤ b) :
    cutEdge mn mx k a ≤ cutEdge mn mx k b := by
  rw [cutEdge_nondegen_pos h a (by omega), cutEdge_nondegen_pos h b (by omega)]
  have hw : (0 : ℚ) ≤ mx - mn := by linarith
  have hkq : (0 : ℚ) < (k : ℚ) := by exact_mod_cast hk
  have hcast : (a : ℚ) ≤ (b : ℚ) := by exact_mod_cast hab
  have hmul : (a : ℚ) * (mx - mn) ≤ (b : ℚ) * (mx - mn) :=
    mul_le_mul_of_nonneg_right hcast hw
  have := (div_le_div_iff_of_pos_right hkq).mpr hmul
  linarith

theorem cutEdge_degen_zero_lt {v : ℚ} {k : ℕ} : cutEdge v v k 0 < v := by
  unfold cutEdge
  rw [if_pos rfl]
  have := padOf_pos v
  push_cast
  simp only [zero_mul, zero_div, add_zero]
  linarith

theorem cutEdge_degen_last {v : ℚ} {k : ℕ} (hk : 0 < k) :
    cutEdge v v k k = v + padOf v := by
  unfold cutEdge
  rw [if_pos rfl]
  have hkq : (k : ℚ) ≠ 0 := Nat.cast_ne_zero.mpr (Nat.pos_iff_ne_zero.mp hk)
  field_simp
  ring

/-! ### Scan lemmas -/

theorem firstLEAux_bounds (e : ℕ → ℚ) (x : ℚ) :
    ∀ (fuel i j : ℕ), firstLEAux e x i fuel = some j →
      i ≤ j ∧ j < i + fuel ∧ x ≤ e (j + 1) ∧
        ∀ m, i ≤ m → m < j → e (m + 1) < x := by
  intro fuel
  induction fuel with
  | zero => intro i j h; simp [firstLEAux] at h
  | succ fuel ih =>
    intro i j h
    simp only [firstLEAux] at h
    by_cases hx : x ≤ e (i + 1)
    · rw [if_pos hx] at h
      obtain rfl : i = j := Option.some.inj h
      exact ⟨le_refl i, by omega, hx, fun m h1 h2 => absurd h2 (by omega)⟩
    · rw [if_neg hx] at h
      obtain ⟨h1, h2, h3, h4⟩ := ih (i + 1) j h
      refine ⟨by omega, by omega, h3, fun m hm1 hm2 => ?_⟩
      by_cases hmi : m = i
      · subst hmi; exact not_le.mp hx
      · exact h4 m (by omega) hm2

theorem firstLEAux_total (e : ℕ → ℚ) (x : ℚ) :
    ∀ (fuel i : ℕ), 0 < fuel → x ≤ e (i + fuel) →
      ∃ j, firstLEAux e x i fuel = some j := by
  intro fuel
  induction fuel with
  | zero => intro i h; omega
  | succ fuel ih =>
    intro i _ hx
    simp only [firstLEAux]
    by_cases h1 : x ≤ e (i + 1)
    · exact ⟨i, by rw [if_pos h1]⟩
    · cases fuel with
      | zero => exact absurd (by simpa using hx) h1
      | succ f =>
        have hx2 : x ≤ e ((i + 1) + (f + 1)) := by
          have harr : (i + 1) + (f + 1) = i + (f + 1 + 1) := by omega
          rw [harr]; exact hx
        obtain ⟨j, hj⟩ := ih (i + 1) (by omega) hx2
        exact ⟨j, by rw [if_neg h1]; exact hj⟩

/-- Any `x` strictly above the first edge and at most the last edge gets a
well-defined bin index, lying strictly inside its left-open right-closed
interval. -/
theorem binIdx_some (mn mx : ℚ) (k : ℕ) (hk : 0 < k) (x : ℚ)
    (h0 : cutEdge mn mx k 0 < x) (hK : x ≤ cutEdge mn mx k k) :
    ∃ i, binIdx mn mx k x = some i ∧ i < k ∧ cutEdge mn mx k i < x ∧
      x ≤ cutEdge mn mx k (i + 1) := by
  unfold binIdx
  rw [if_neg (not_le.mpr h0)]
  obtain ⟨j, hj⟩ :=
    firstLEAux_total (cutEdge mn mx k) x k 0 hk (by simpa using hK)
  obtain ⟨-, h2, h3, h4⟩ := firstLEAux_bounds (cutEdge mn mx k) x k 0 j hj
  refine ⟨j, hj, by omega, ?_, h3⟩
  cases j with
  | zero => exact h0
  | succ m => exact h4 m (by omega) (by omega)

/-- At most one left-open right-closed bin contains `x` (non-degenerate
range). -/
theorem bin_char_unique {mn mx : ℚ} {k : ℕ} (hk : 0 < k) (hlt : mn < mx)
    (x : ℚ) {i j : ℕ} (hi : i < k) (hj : j < k)
    (hil : cutEdge mn mx k i < x) (hiu : x ≤ cutEdge mn mx k (i + 1))
    (hjl : cutEdge mn mx k j < x) (hju : x ≤ cutEdge mn mx k (j + 1)) :
    i = j := by
  by_contra hne
  rcases Nat.lt_or_ge i j with hcase | hcase
  · have : cutEdge mn mx k (i + 1) ≤ cutEdge mn mx k j :=
      cutEdge_mono hlt hk (by omega) (by omega)
    linarith
  · have hji : j < i := by omega
    have : cutEdge mn mx k (j + 1) ≤ cutEdge mn mx k i :=
      cutEdge_mono hlt hk (by omega) (by omega)
    linarith

/-! ### Concrete grids used as witnesses -/

/-- Three samples with non-degenerate flow and temperature ranges. -/
def gridSamples : List HSample := [⟨0, 0, 10⟩, ⟨1, 1, 20⟩, ⟨2, 2, 30⟩]

/-- Two samples whose flow values are all identical (zero-width range). -/
def flatSamples : List HSample := [⟨5, 0, 10⟩, ⟨5, 1, 20⟩]

/-! ### Claim theorems for the grid aggregator -/

/-- C4 counterexample: on `gridSamples` (flow range `[0, 2]`, 2 bins) the
code reports the first flow-bin center as `0.499` — the midpoint of the
pandas interval `(-0.002, 1]` whose left edge was lowered by 0.1% of the
range — not the claimed midpoint `0.5` of `[0, 1)`; and the boundary
value `1` is assigned to bin `0` (intervals are left-open right-closed),
not to bin `1` as the claimed half-open partition requires. -/
theorem grid_binning_counterexample :
    flowCenter gridSamples 2 0 = 499 / 1000 ∧
      specMid (flowMin gridSamples) (flowMax gridSamples) 2 0 = 1 / 2 ∧
      ((499 : ℚ) / 1000) ≠ 1 / 2 ∧
      flowBin gridSamples 2 1 = some 0 ∧
      specAssign (flowMin gridSamples) (flowMax gridSamples) 2 1 = 1 := by
  refine ⟨?_, ?_, by norm_num, ?_, ?_⟩
  · norm_num [gridSamples, flowCenter, cutEdge, padOf, flowMin, flowMax,
      listMin, listMax]
  · norm_num [gridSamples, specMid, flowMin, flowMax, listMin, listMax]
  · norm_num [gridSamples, flowBin, binIdx, cutEdge, padOf, firstLEAux,
      flowMin, flowMax, listMin, listMax]
  · norm_num [gridSamples, specAssign, flowMin, flowMax, listMin, listMax,
      List.range, List.range.loop, List.findIdx?]

/-- C4 (amended). For non-empty input with non-degenerate ranges and
`k ≥ 1` bins: every sample's flow (resp. temperature) falls in exactly
one of the `k` left-open right-closed pandas bins `(e_i, e_{i+1}]` — so
each sample lands in exactly one grid cell, `cellSamples` membership
being exactly bin agreement; each populated cell's aggregate is the
arithmetic mean of its samples' efficiencies; and the reported cell
coordinate is the midpoint of the pandas interval: for `i ≥ 1` the ideal
equal-width midpoint `mn + (2i+1)(mx-mn)/(2k)`, while the first bin's
center is lowered by `(mx-mn)/2000` because pandas lowers the first edge
by 0.1% of the range. -/
theorem grid_binning_amended (ss : List HSample) (k : ℕ) (hk : 0 < k)
    (hf : flowMin ss < flowMax ss) (ht : tempMin ss < tempMax ss) :
    (∀ s ∈ ss, ∃ i j, i < k ∧ j < k ∧
        flowBin ss k s.flow = some i ∧ tempBin ss k s.temp = some j ∧
        cutEdge (flowMin ss) (flowMax ss) k i < s.flow ∧
        s.flow ≤ cutEdge (flowMin ss) (flowMax ss) k (i + 1) ∧
        cutEdge (tempMin ss) (tempMax ss) k j < s.temp ∧
        s.temp ≤ cutEdge (tempMin ss) (tempMax ss) k (j + 1) ∧
        (∀ i2, i2 < k → cutEdge (flowMin ss) (flowMax ss) k i2 < s.flow →
          s.flow ≤ cutEdge (flowMin ss) (flowMax ss) k (i2 + 1) → i2 = i) ∧
        (∀ j2, j2 < k → cutEdge (tempMin ss) (tempMax ss) k j2 < s.temp →
          s.temp ≤ cutEdge (tempMin ss) (tempMax ss) k (j2 + 1) → j2 = j)) ∧
    (∀ s i j, s ∈ cellSamples ss k i j ↔
        s ∈ ss ∧ flowBin ss k s.flow = some i ∧
          tempBin ss k s.temp = some j) ∧
    (∀ i j, cellCount ss k i j ≠ 0 →
        cellAgg ss k i j =
          ((cellSamples ss k i j).map HSample.eff).sum / cellCount ss k i j) ∧
    (∀ i, i ≠ 0 → flowCenter ss k i =
        flowMin ss + (2 * i + 1) * (flowMax ss - flowMin ss) / (2 * k)) ∧
    (flowCenter ss k 0 =
        flowMin ss + (flowMax ss - flowMin ss) / (2 * k)
          - (flowMax ss - flowMin ss) / 2000) ∧
    (∀ j, j ≠ 0 → tempCenter ss k j =
        tempMin ss + (2 * j + 1) * (tempMax ss - tempMin ss) / (2 * k)) ∧
    (tempCenter ss k 0 =
        tempMin ss + (tempMax ss - tempMin ss) / (2 * k)
          - (tempMax ss - tempMin ss) / 2000) := by
  have hkq : (k : ℚ) ≠ 0 := Nat.cast_ne_zero.mpr (Nat.pos_iff_ne_zero.mp hk)
  refine ⟨?_, ?_, ?_, ?_, ?_, ?_, ?_⟩
  · intro s hs
    have hf1 : flowMin ss ≤ s.flow :=
      listMin_le (List.mem_map_of_mem HSample.flow hs)
    have hf2 : s.flow ≤ flowMax ss :=
      le_listMax (List.mem_map_of_mem HSample.flow hs)
    have ht1 : tempMin ss ≤ s.temp :=
      listMin_le (List.mem_map_of_mem HSample.temp hs)
    have ht2 : s.temp ≤ tempMax ss :=
      le_listMax (List.mem_map_of_mem HSample.temp hs)
    obtain ⟨i, hbi, hik, hil, hiu⟩ :=
      binIdx_some (flowMin ss) (flowMax ss) k hk s.flow
        (lt_of_lt_of_le (cutEdge_zero_lt_min hf) hf1)
        (by rw [cutEdge_last hf hk]; exact hf2)
    obtain ⟨j, hbj, hjk, hjl, hju⟩ :=
      binIdx_some (tempMin ss) (tempMax ss) k hk s.temp
        (lt_of_lt_of_le (cutEdge_zero_lt_min ht) ht1)
        (by rw [cutEdge_last ht hk]; exact ht2)
    refine ⟨i, j, hik, hjk, hbi, hbj, hil, hiu, hjl, hju, ?_, ?_⟩
    · intro i2 h1 h2 h3
      exact bin_char_unique hk hf s.flow h1 hik h2 h3 hil hiu
    · intro j2 h1 h2 h3
      exact bin_char_unique hk ht s.temp h1 hjk h2 h3 hjl hju
  · intro s i j
    simp only [cellSamples, List.mem_filter, Bool.and_eq_true,
      decide_eq_true_eq]
  · intro i j hc
    unfold cellAgg cellCount cellMean at *
    cases hcs : cellSamples ss k i j with
    | nil => rw [hcs] at hc; simp at hc
    | cons a l => simp
  · intro i hi
    unfold flowCenter
    rw [cutEdge_nondegen_pos hf i hi,
      cutEdge_nondegen_pos hf (i + 1) (Nat.succ_ne_zero i)]
    push_cast
    field_simp
    ring
  · unfold flowCenter
    rw [cutEdge_nondegen_zero hf, cutEdge_nondegen_pos hf 1 one_ne_zero]
    push_cast
    field_simp
    ring
  · intro j hj
    unfold tempCenter
    rw [cutEdge_nondegen_pos ht j hj,
      cutEdge_nondegen_pos ht (j + 1) (Nat.succ_ne_zero j)]
    push_cast
    field_simp
    ring
  · unfold tempCenter
    rw [cutEdge_nondegen_zero ht, cutEdge_nondegen_pos ht 1 one_ne_zero]
    push_cast
    field_simp
    ring

/-- C4 witness: the amended grid facts instantiated on `gridSamples` with
2 bins. -/
theorem grid_binning_amended_witness :
    ((0 : ℕ) < 2 ∧ flowMin gridSamples < flowMax gridSamples ∧
        tempMin gridSamples < tempMax gridSamples) ∧
      ((∀ s ∈ gridSamples, ∃ i j, i < 2 ∧ j < 2 ∧
          flowBin gridSamples 2 s.flow = some i ∧
          tempBin gridSamples 2 s.temp = some j ∧
          cutEdge (flowMin gridSamples) (flowMax gridSamples) 2 i < s.flow ∧
          s.flow ≤ cutEdge (flowMin gridSamples) (flowMax gridSamples) 2
            (i + 1) ∧
          cutEdge (tempMin gridSamples) (tempMax gridSamples) 2 j < s.temp ∧
          s.temp ≤ cutEdge (tempMin gridSamples) (tempMax gridSamples) 2
            (j + 1) ∧
          (∀ i2, i2 < 2 →
            cutEdge (flowMin gridSamples) (flowMax gridSamples) 2 i2 <
              s.flow →
            s.flow ≤ cutEdge (flowMin gridSamples) (flowMax gridSamples) 2
              (i2 + 1) → i2 = i) ∧
          (∀ j2, j2 < 2 →
            cutEdge (tempMin gridSamples) (tempMax gridSamples) 2 j2 <
              s.temp →
            s.temp ≤ cutEdge (tempMin gridSamples) (tempMax gridSamples) 2
              (j2 + 1) → j2 = j)) ∧
        (∀ s i j, s ∈ cellSamples gridSamples 2 i j ↔
            s ∈ gridSamples ∧ flowBin gridSamples 2 s.flow = some i ∧
              tempBin gridSamples 2 s.temp = some j) ∧
        (∀ i j, cellCount gridSamples 2 i j ≠ 0 →
            cellAgg gridSamples 2 i j =
              ((cellSamples gridSamples 2 i j).map HSample.eff).sum /
                cellCount gridSamples 2 i j) ∧
        (∀ i, i ≠ 0 → flowCenter gridSamples 2 i =
            flowMin gridSamples +
              (2 * i + 1) * (flowMax gridSamples - flowMin gridSamples) /
                (2 * 2)) ∧
        (flowCenter gridSamples 2 0 =
            flowMin gridSamples +
              (flowMax gridSamples - flowMin gridSamples) / (2 * 2) -
              (flowMax gridSamples - flowMin gridSamples) / 2000) ∧
        (∀ j, j ≠ 0 → tempCenter gridSamples 2 j =
            tempMin gridSamples +
              (2 * j + 1) * (tempMax gridSamples - tempMin gridSamples) /
                (2 * 2)) ∧
        (tempCenter gridSamples 2 0 =
            tempMin gridSamples +
              (tempMax gridSamples - tempMin gridSamples) / (2 * 2) -
              (tempMax gridSamples - tempMin gridSamples) / 2000)) :=
  ⟨⟨by norm_num,
      by norm_num [gridSamples, flowMin, flowMax, listMin, listMax],
      by norm_num [gridSamples, tempMin, tempMax, listMin, listMax]⟩,
    grid_binning_amended gridSamples 2 (by norm_num)
      (by norm_num [gridSamples, flowMin, flowMax, listMin, listMax])
      (by norm_num [gridSamples, tempMin, tempMax, listMin, listMax])⟩

/-- C5. A cell to which zero samples were assigned has aggregate exactly
`0` (the `fillna(0)` of the `NaN` group mean) and, before `fillna`, the
`NaN` marker — so it is the sample count (zero versus nonzero), not the
aggregate value alone, that distinguishes it from a populated cell. -/
theorem empty_cell_fallback (ss : List HSample) (k i j : ℕ)
    (h : cellCount ss k i j = 0) :
    cellAgg ss k i j = 0 ∧ cellMean ss k i j = none := by
  have hnil : cellSamples ss k i j = [] := List.length_eq_zero.mp h
  constructor
  · unfold cellAgg cellMean
    rw [hnil]
    rfl
  · unfold cellMean
    rw [hnil]

/-- C5 witness: cell `(0, 1)` of the 2×2 grid over `gridSamples` is
empty, its aggregate is `0` and its pre-`fillna` mean is `NaN`. -/
theorem empty_cell_fallback_witness :
    cellCount gridSamples 2 0 1 = 0 ∧
      (cellAgg gridSamples 2 0 1 = 0 ∧ cellMean gridSamples 2 0 1 = none) :=
  ⟨by norm_num [gridSamples, cellCount, cellSamples, List.filter, flowBin,
      tempBin, binIdx, cutEdge, padOf, firstLEAux, flowMin, flowMax,
      tempMin, tempMax, listMin, listMax],
    empty_cell_fallback gridSamples 2 0 1
      (by norm_num [gridSamples, cellCount, cellSamples, List.filter,
        flowBin, tempBin, binIdx, cutEdge, padOf, firstLEAux, flowMin,
        flowMax, tempMin, tempMax, listMin, listMax])⟩

/-- C8 counterexample: with every flow equal to `5` and the default 20
bins, `pd.cut` does **not** fall back to a single bin spanning that
value: the constant value is assigned to bin index `9` of the 20 bins
over the widened range — impossible under a single-bin fallback, where
every index would be `< 1`. -/
theorem degenerate_single_bin_counterexample :
    flowBin flatSamples 20 5 = some 9 ∧ ¬ (9 < 1) := by
  constructor
  · norm_num [flatSamples, flowBin, binIdx, cutEdge, padOf, firstLEAux,
      flowMin, flowMax, listMin, listMax]
  · omega

/-- C8 (amended). When all flow values are identical (`v`), pandas widens
the zero-width range by `0.1% · |v|` on each side (`0.001` for `v = 0`)
and still partitions it into `k` bins; every sample receives a
well-defined bin index below `k`, so the aggregation completes without
surfacing a failure, and the widened edge span strictly encloses `v`. -/
theorem degenerate_range_bins (ss : List HSample) (v : ℚ) (k : ℕ)
    (hk : 0 < k) (hne : ss ≠ []) (hall : ∀ s ∈ ss, s.flow = v) :
    (∀ s ∈ ss, ∃ i, i < k ∧ flowBin ss k s.flow = some i) ∧
      cutEdge v v k 0 < v ∧ cutEdge v v k k = v + padOf v := by
  have hmap_ne : ss.map HSample.flow ≠ [] := by
    intro h
    exact hne (List.map_eq_nil_iff.mp h)
  have hconst : ∀ x ∈ ss.map HSample.flow, x = v := by
    intro x hx
    obtain ⟨s, hs, rfl⟩ := List.mem_map.mp hx
    exact hall s hs
  have hmn : flowMin ss = v := listMin_const hmap_ne hconst
  have hmx : flowMax ss = v := listMax_const hmap_ne hconst
  refine ⟨?_, cutEdge_degen_zero_lt, cutEdge_degen_last hk⟩
  intro s hs
  have hsv : s.flow = v := hall s hs
  unfold flowBin
  rw [hmn, hmx, hsv]
  have hK : v ≤ cutEdge v v k k := by
    rw [cutEdge_degen_last hk]
    have := padOf_pos v
    linarith
  obtain ⟨i, hbi, hik, -, -⟩ :=
    binIdx_some v v k hk v cutEdge_degen_zero_lt hK
  exact ⟨i, hik, hbi⟩

/-- C8 witness: the amended degenerate-range facts instantiated on
`flatSamples` (all flows `5`) with 20 bins. -/
theorem degenerate_range_bins_witness :
    ((0 : ℕ) < 20 ∧ flatSamples ≠ [] ∧
        (∀ s ∈ flatSamples, s.flow = 5)) ∧
      ((∀ s ∈ flatSamples, ∃ i, i < 20 ∧
          flowBin flatSamples 20 s.flow = some i) ∧
        cutEdge 5 5 20 0 < 5 ∧ cutEdge 5 5 20 20 = 5 + padOf 5) :=
  ⟨⟨by norm_num, by simp [flatSamples], by norm_num [flatSamples]⟩,
    degenerate_range_bins flatSamples 5 20 (by norm_num)
      (by simp [flatSamples]) (by norm_num [flatSamples])⟩

/-! ## ScatteredSurfaceInterpolator (spec §4.4; no interpolation code
exists under `src/`, so this component is modelled from the spec) -/

/-- A point in the (flow, temperature) plane. -/
structure Pt where
  x : ℚ
  y : ℚ
deriving DecidableEq

/-- Twice the signed area of the triangle `(o, a, b)`. -/
def cross (o a b : Pt) : ℚ :=
  (a.x - o.x) * (b.y - o.y) - (a.y - o.y) * (b.x - o.x)

/-- `p` lies on the closed segment from `a` to `b`. -/
def onSeg (a b p : Pt) : Bool :=
  decide (cross a b p = 0 ∧ min a.x b.x ≤ p.x ∧ p.x ≤ max a.x b.x ∧
    min a.y b.y ≤ p.y ∧ p.y ≤ max a.y b.y)

/-- `p` lies in the closed (possibly degenerate) triangle `(a, b, c)`:
for a non-degenerate triangle all three edge orientations agree; a
degenerate (collinear) triangle is covered by its three segments. -/
def inTriangle (a b c p : Pt) : Bool :=
  if cross a b c = 0 then onSeg a b p || onSeg b c p || onSeg a c p
  else
    decide ((0 ≤ cross a b p ∧ 0 ≤ cross b c p ∧ 0 ≤ cross c a p) ∨
      (cross a b p ≤ 0 ∧ cross b c p ≤ 0 ∧ cross c a p ≤ 0))

/-- Modelled from the spec: membership of `p` in the convex hull of the
scattered input points — by Carathéodory in the plane, `p` is in the
hull exactly when some (possibly degenerate) triangle of input points
contains it. -/
def inHull (pts : List Pt) (p : Pt) : Bool :=
  pts.any fun a => pts.any fun b => pts.any fun c => inTriangle a b c p

/-- All ordered triples of a list, used to search a containing triangle. -/
def triples {α : Type} (l : List α) : List (α × α × α) :=
  l.flatMap fun a => l.flatMap fun b => l.map fun c => (a, b, c)

/-- Barycentric linear interpolation of the three vertex values of a
non-degenerate triangle at `p`. -/
def triInterp (a b c : Pt) (va vb vc : ℚ) (p : Pt) : ℚ :=
  let det := cross a b c
  (cross p b c / det) * va + (cross a p c / det) * vb +
    (cross a b p / det) * vc

/-- Modelled from the spec: the triangulation-based piecewise-linear
estimate at a covered point — the barycentric interpolation over the
first non-degenerate input triangle containing `p` (falling back to the
first input value on degenerate geometry). -/
def estimateAt (pts : List (Pt × ℚ)) (p : Pt) : ℚ :=
  match (triples pts).findSome? fun t =>
      if cross t.1.1 t.2.1.1 t.2.2.1 ≠ 0 ∧
          inTriangle t.1.1 t.2.1.1 t.2.2.1 p = true then
        some (triInterp t.1.1 t.2.1.1 t.2.2.1 t.1.2 t.2.1.2 t.2.2.2 p)
      else none with
  | some v => v
  | none => ((pts.map Prod.snd).headD 0)

/-- Modelled from the spec: `ScatteredSurfaceInterpolator.interpolate`
evaluated at one mesh point — a linearly interpolated value inside the
convex hull of the inputs, and the explicit no-coverage marker (`none`)
outside it. -/
def interpolateAt (pts : List (Pt × ℚ)) (p : Pt) : Option ℚ :=
  if inHull (pts.map Prod.fst) p then some (estimateAt pts p) else none

/-- `np.linspace mn mx res` evaluated at index `i`: the uniform mesh
coordinate spanning the observed axis range. -/
def meshCoord (mn mx : ℚ) (res i : ℕ) : ℚ :=
  if res ≤ 1 then mn else mn + i * (mx - mn) / (res - 1)

/-- The `(i, j)` point of the `res × res` mesh spanning the observed
flow/temperature ranges of the scattered inputs. -/
def meshPt (pts : List (Pt × ℚ)) (res i j : ℕ) : Pt :=
  ⟨meshCoord (listMin (pts.map fun q => q.1.x))
      (listMax (pts.map fun q => q.1.x)) res i,
    meshCoord (listMin (pts.map fun q => q.1.y))
      (listMax (pts.map fun q => q.1.y)) res j⟩

/-- The interpolated surface at mesh index `(i, j)`. -/
def surfaceAt (pts : List (Pt × ℚ)) (res i j : ℕ) : Option ℚ :=
  interpolateAt pts (meshPt pts res i j)

/-- Concrete scattered input: a right triangle of three measurements. -/
def triPts : List (Pt × ℚ) := [(⟨0, 0⟩, 50), (⟨1, 0⟩, 60), (⟨0, 1⟩, 70)]

/-! ### Claim theorem for the interpolator -/

/-- C9. (Spec-modelled: no interpolation code exists in `src/app.py`.)
Every mesh point outside the convex hull of the input (flow,
temperature) pairs carries the explicit no-coverage marker `none` and
never a numeric value. -/
theorem surface_no_coverage_outside_hull (pts : List (Pt × ℚ))
    (res i j : ℕ)
    (h : inHull (pts.map Prod.fst) (meshPt pts res i j) = false) :
    surfaceAt pts res i j = none := by
  unfold surfaceAt interpolateAt
  rw [h]
  simp

/-- C9 witness: the mesh corner `(1, 1)` of the 2×2 mesh over `triPts`
lies outside the triangle's hull and gets the no-coverage marker. -/
theorem surface_no_coverage_outside_hull_witness :
    inHull (triPts.map Prod.fst) (meshPt triPts 2 1 1) = false ∧
      surfaceAt triPts 2 1 1 = none := by
  have h : inHull (triPts.map Prod.fst) (meshPt triPts 2 1 1) = false := by
    norm_num [triPts, meshPt, meshCoord, listMin, listMax, inHull,
      inTriangle, onSeg, cross, List.any]
  exact ⟨h, surface_no_coverage_outside_hull triPts 2 1 1 h⟩

end EmissionHeatmap
